import Mathlib

/-!
Verification of the representation and differential conversion engine of the
coordinax vector library.

The development shallowly embeds the parts of the library the checked
properties talk about, working over exact real arithmetic:

* the 3D position catalog (Cartesian3D, Cylindrical, Spherical, MathSpherical)
  with its construction-time converters and validators, and the
  type-directed conversion dispatcher of `_d3/transform.py` with its
  Cartesian-pivot fallback;
* the 1D catalog (Cartesian1D, Radial) and its dispatcher from
  `_d1/transform.py` and `_d1/builtin.py`;
* the dimension-reducing (lossy) position conversions of `_transform/d3.py`,
  with the warning they emit;
* the construction validators of `RadialPosition` (`_d1/builtin.py`) and
  `ProlateSpheroidalPos` (`_src/vectors/d3/spheroidal.py`), and the azimuth
  normalization converter of `_src/converters.py`;
* the shape check of `FourVector.__check_init__`
  (`_src/vectors/d4/spacetime.py`) over numpy-style broadcast semantics;
* the Jacobian-contraction engine for accelerations of
  `_src/vectors/register_vconvert/accelerations.py`, parametrized over the
  automatic-differentiation substrate (the `jacobian`/`vectorize` primitives
  are an external boundary of the library).

Machine floats are modelled as real numbers; a runtime validation error is
modelled as `Option.none`; the azimuthal `%` of the source is real floor-mod.

The file is organized as definitions first, then the theorems about them.
-/

namespace Coordinax

noncomputable section

open Real

/-! ## Angle utilities

`converter_azimuth_to_range` in `_src/converters.py` is `phi % Angle(360, "deg")`,
the floor-mod that wraps an azimuth into `[0, 2*pi)` (we work in radians).
`xp.atan2` is the principal argument of the point `(x, y)`, valued in
`(-pi, pi]` with `atan2 0 0 = 0`; over the reals this is `Complex.arg`. -/

/-- Embedding of `converter_azimuth_to_range`: wrap an azimuth into the range
`[0, 2*pi)` by the floor-mod `phi % (2*pi)`. -/
def converter_azimuth_to_range (phi : ℝ) : ℝ :=
  phi - 2 * π * ⌊phi / (2 * π)⌋

/-- Embedding of `xp.atan2 y x`: the principal argument of the complex point
with real part `x` and imaginary part `y`, valued in `(-pi, pi]`. -/
def atan2 (y x : ℝ) : ℝ := Complex.arg ⟨x, y⟩

/-! ## The 3D position catalog

`Vec3` is the sum of the four 3D position representations handled by
`_d3/transform.py`; a constructor's arguments are the stored components.
The `mk*` functions embed object construction: field converters (azimuth
wrap) followed by the `__check_init__` validators (`check_r_non_negative`,
`check_polar_range`), a failed check being `none`. The concrete 3D classes
are not among the embedded sources, so the construction pipeline is
modelled from the spec (radial components nonnegative, inclination in
`[0, pi]`, azimuth wrapped), using the in-source validators of
`_src/vectors/checks.py` and `_src/converters.py`. -/

/-- The 3D chart identifiers of the catalog in `_d3/transform.py`. -/
inductive Chart3 where
  | cart | cyl | sph | msph
deriving DecidableEq

/-- A 3D position vector: Cartesian3DVector `(x, y, z)`, CylindricalVector
`(rho, phi, z)`, SphericalVector `(r, theta, phi)` with polar `theta` and
azimuth `phi`, or MathSphericalVector `(r, theta, phi)` with azimuth `theta`
and polar `phi`. -/
inductive Vec3 where
  | cart3 (x y z : ℝ)
  | cyl (rho phi z : ℝ)
  | sph (r theta phi : ℝ)
  | msph (r theta phi : ℝ)

/-- The chart a 3D vector belongs to. -/
def chartOf3 : Vec3 → Chart3
  | .cart3 _ _ _ => .cart
  | .cyl _ _ _ => .cyl
  | .sph _ _ _ => .sph
  | .msph _ _ _ => .msph

/-- Modelled from the spec: Cartesian3DVector construction (no validator). -/
def mkCartesian3D (x y z : ℝ) : Option Vec3 := some (.cart3 x y z)

/-- Modelled from the spec: CylindricalVector construction wraps the azimuth
and requires `rho` nonnegative (`check_r_non_negative`). -/
def mkCylindrical (rho phi z : ℝ) : Option Vec3 :=
  if 0 ≤ rho then some (.cyl rho (converter_azimuth_to_range phi) z) else none

/-- Modelled from the spec: SphericalVector construction wraps the azimuth
`phi`, requires `r` nonnegative (`check_r_non_negative`) and the polar
`theta` in `[0, pi]` (`check_polar_range`). -/
def mkSpherical (r theta phi : ℝ) : Option Vec3 :=
  if 0 ≤ r ∧ 0 ≤ theta ∧ theta ≤ π then
    some (.sph r theta (converter_azimuth_to_range phi))
  else none

/-- Modelled from the spec: MathSphericalVector construction wraps the azimuth
`theta`, requires `r` nonnegative and the polar `phi` in `[0, pi]`. -/
def mkMathSpherical (r theta phi : ℝ) : Option Vec3 :=
  if 0 ≤ r ∧ 0 ≤ phi ∧ phi ≤ π then
    some (.msph r (converter_azimuth_to_range theta) phi)
  else none

/-! ## The 3D conversion dispatcher

`rules3` is the registry of specific `represent_as` rules of
`_d3/transform.py` (four self rules plus twelve closed-form cross rules),
keyed by source and target chart. `dispatch3With` is the resolution
algorithm: a registered rule applies directly; otherwise the generic
`Abstract3DVector -> Cartesian3D -> Abstract3DVector` rule routes through
the Cartesian pivot, recursing into the dispatcher for both hops (bounded
here by an explicit recursion budget, since the source recursion terminates
only because the Cartesian rules are registered). -/

/-- The registered specific rules of `_d3/transform.py`: each returns the
transform function for a source/target chart pair, or `none` when only the
generic pivot rule covers the pair. -/
def rules3 (src tgt : Chart3) : Option (Vec3 → Option Vec3) :=
  match src, tgt with
  | .cart, .cart => some (fun v => some v)
  | .cyl, .cyl => some (fun v => some v)
  | .sph, .sph => some (fun v => some v)
  | .msph, .msph => some (fun v => some v)
  | .cart, .cyl => some (fun v =>
      match v with
      | .cart3 x y z => mkCylindrical (Real.sqrt (x ^ 2 + y ^ 2)) (atan2 y x) z
      | _ => none)
  | .cart, .sph => some (fun v =>
      match v with
      | .cart3 x y z =>
          mkSpherical (Real.sqrt (x ^ 2 + y ^ 2 + z ^ 2))
            (Real.arccos (z / Real.sqrt (x ^ 2 + y ^ 2 + z ^ 2))) (atan2 y x)
      | _ => none)
  | .cart, .msph => some (fun v =>
      match v with
      | .cart3 x y z =>
          mkMathSpherical (Real.sqrt (x ^ 2 + y ^ 2 + z ^ 2)) (atan2 y x)
            (Real.arccos (z / Real.sqrt (x ^ 2 + y ^ 2 + z ^ 2)))
      | _ => none)
  | .cyl, .cart => some (fun v =>
      match v with
      | .cyl rho phi z => mkCartesian3D (rho * Real.cos phi) (rho * Real.sin phi) z
      | _ => none)
  | .cyl, .sph => some (fun v =>
      match v with
      | .cyl rho phi z =>
          mkSpherical (Real.sqrt (rho ^ 2 + z ^ 2))
            (Real.arccos (z / Real.sqrt (rho ^ 2 + z ^ 2))) phi
      | _ => none)
  | .cyl, .msph => some (fun v =>
      match v with
      | .cyl rho phi z =>
          mkMathSpherical (Real.sqrt (rho ^ 2 + z ^ 2)) phi
            (Real.arccos (z / Real.sqrt (rho ^ 2 + z ^ 2)))
      | _ => none)
  | .sph, .cart => some (fun v =>
      match v with
      | .sph r theta phi =>
          mkCartesian3D (r * Real.sin theta * Real.cos phi)
            (r * Real.sin theta * Real.sin phi) (r * Real.cos theta)
      | _ => none)
  | .sph, .cyl => some (fun v =>
      match v with
      | .sph r theta phi =>
          mkCylindrical |r * Real.sin theta| phi (r * Real.cos theta)
      | _ => none)
  | .sph, .msph => some (fun v =>
      match v with
      | .sph r theta phi => mkMathSpherical r phi theta
      | _ => none)
  | .msph, .cart => some (fun v =>
      match v with
      | .msph r theta phi =>
          mkCartesian3D (r * Real.sin phi * Real.cos theta)
            (r * Real.sin phi * Real.sin theta) (r * Real.cos phi)
      | _ => none)
  | .msph, .cyl => some (fun v =>
      match v with
      | .msph r theta phi =>
          mkCylindrical |r * Real.sin phi| theta (r * Real.cos phi)
      | _ => none)
  | .msph, .sph => some (fun v =>
      match v with
      | .msph r theta phi => mkSpherical r phi theta
      | _ => none)

/-- The dispatcher resolution algorithm over an arbitrary rule registry:
apply the registered rule when one exists, otherwise route through the
canonical Cartesian pivot (the generic `Abstract3DVector` rule of
`_d3/transform.py`), with an explicit recursion budget. -/
def dispatch3With (rules : Chart3 → Chart3 → Option (Vec3 → Option Vec3)) :
    ℕ → Vec3 → Chart3 → Option Vec3
  | 0, v, t =>
    match rules (chartOf3 v) t with
    | some f => f v
    | none => none
  | fuel + 1, v, t =>
    match rules (chartOf3 v) t with
    | some f => f v
    | none =>
        (dispatch3With rules fuel v .cart).bind fun w => dispatch3With rules fuel w t

/-- The 3D `represent_as` dispatcher with the registry of `_d3/transform.py`.
All sixteen chart pairs of the catalog carry specific rules, so no pivot
hop of budget is ever consumed. -/
def represent_as_d3 (v : Vec3) (t : Chart3) : Option Vec3 :=
  dispatch3With rules3 1 v t

/-- The construction-time invariants a held 3D instance satisfies: radial
components nonnegative, polar angles in `[0, pi]`, azimuths wrapped into
`[0, 2*pi)`. -/
def Valid3 : Vec3 → Prop
  | .cart3 _ _ _ => True
  | .cyl rho phi _ => 0 ≤ rho ∧ 0 ≤ phi ∧ phi < 2 * π
  | .sph r theta phi => 0 ≤ r ∧ 0 ≤ theta ∧ theta ≤ π ∧ 0 ≤ phi ∧ phi < 2 * π
  | .msph r theta phi => 0 ≤ r ∧ 0 ≤ theta ∧ theta < 2 * π ∧ 0 ≤ phi ∧ phi ≤ π

/-- Strictly off the coordinate axis of the chart: positive radius and, for
the spherical charts, polar angle strictly inside `(0, pi)`. At the excluded
points the azimuth degenerates (`atan2 0 0 = 0`). -/
def Offaxis3 : Vec3 → Prop
  | .cart3 _ _ _ => True
  | .cyl rho _ _ => 0 < rho
  | .sph r theta _ => 0 < r ∧ 0 < theta ∧ theta < π
  | .msph r _ phi => 0 < r ∧ 0 < phi ∧ phi < π

/-! ## 3D differentials (velocities) and accelerations -/

/-- A 3D velocity (differential) vector of one of the four charts; the
self-transform rules of `_d3/transform.py` dispatch on these. -/
inductive Vel3 where
  | cart3 (d_x d_y d_z : ℝ)
  | cyl (d_rho d_phi d_z : ℝ)
  | sph (d_r d_theta d_phi : ℝ)
  | msph (d_r d_theta d_phi : ℝ)

/-- The chart a 3D velocity belongs to. -/
def chartOfVel3 : Vel3 → Chart3
  | .cart3 _ _ _ => .cart
  | .cyl _ _ _ => .cyl
  | .sph _ _ _ => .sph
  | .msph _ _ _ => .msph

/-- The 3D differential dispatcher restricted to the rules present in
`_d3/transform.py`: the four self transforms, which ignore the supplied
position and return the differential unchanged. Cross-chart differential
rules are delegated to the Jacobian engine and are not part of that file. -/
def represent_as_vel3 (d : Vel3) (t : Chart3) (_position : Vec3) : Option Vel3 :=
  if chartOfVel3 d = t then some d else none

/-- A 3D acceleration vector of one of the four charts. -/
inductive Acc3 where
  | cart3 (dd_x dd_y dd_z : ℝ)
  | cyl (dd_rho dd_phi dd_z : ℝ)
  | sph (dd_r dd_theta dd_phi : ℝ)
  | msph (dd_r dd_theta dd_phi : ℝ)

/-- The chart a 3D acceleration belongs to. -/
def chartOfAcc3 : Acc3 → Chart3
  | .cart3 _ _ _ => .cart
  | .cyl _ _ _ => .cyl
  | .sph _ _ _ => .sph
  | .msph _ _ _ => .msph

/-- Modelled from the spec: self-chart conversion of an acceleration ignores
the supplied velocity and position and returns the input unchanged (the
derivative of the identity map is the identity); the registered acceleration
self-rules are not among the embedded sources. -/
def represent_as_acc3 (a : Acc3) (t : Chart3) (_velocity : Vel3) (_position : Vec3) :
    Option Acc3 :=
  if chartOfAcc3 a = t then some a else none

/-! ## The 1D catalog and dispatcher (`_d1/builtin.py`, `_d1/transform.py`) -/

/-- The 1D chart identifiers. -/
inductive Chart1 where
  | cart1 | radial
deriving DecidableEq

/-- A 1D position: Cartesian1DVector `x` or RadialPosition `r`. -/
inductive Vec1 where
  | cart1 (x : ℝ)
  | radial (r : ℝ)

/-- The chart a 1D vector belongs to. -/
def chartOf1 : Vec1 → Chart1
  | .cart1 _ => .cart1
  | .radial _ => .radial

/-- RadialPosition construction: `__check_init__` runs `check_r_non_negative`,
which raises (`none`) exactly when the component is negative, and stores the
component unchanged otherwise. -/
def mkRadialPosition (r : ℝ) : Option Vec1 :=
  if r < 0 then none else some (.radial r)

/-- The 1D `represent_as` dispatcher of `_d1/transform.py`: self rules return
the input unchanged; `Cartesian1DVector -> RadialVector` passes `x` directly
as `r` (no absolute value), the target constructor validating it;
`RadialVector -> Cartesian1DVector` passes `r` as `x`. -/
def represent_as_d1 (v : Vec1) (t : Chart1) : Option Vec1 :=
  match v, t with
  | .cart1 _, .cart1 => some v
  | .radial _, .radial => some v
  | .cart1 x, .radial => mkRadialPosition x
  | .radial r, .cart1 => some (.cart1 r)

/-- A 1D velocity (differential). -/
inductive Vel1 where
  | cart1 (d_x : ℝ)
  | radial (d_r : ℝ)

/-- The chart a 1D velocity belongs to. -/
def chartOfVel1 : Vel1 → Chart1
  | .cart1 _ => .cart1
  | .radial _ => .radial

/-- The 1D differential self-transforms of `_d1/transform.py`: the supplied
position is ignored and the differential returned unchanged; cross-chart
rules are not part of that file. -/
def represent_as_vel1 (d : Vel1) (t : Chart1) (_position : Vec1) : Option Vel1 :=
  if chartOfVel1 d = t then some d else none

/-! ## The 2D catalog (targets of the lossy 3D downgrades) -/

/-- The 2D chart identifiers. -/
inductive Chart2 where
  | cart2 | polar
deriving DecidableEq

/-- A 2D position: CartesianPosition2D `(x, y)` or PolarPosition `(r, phi)`. -/
inductive Vec2 where
  | cart2 (x y : ℝ)
  | polar (r phi : ℝ)

/-- Modelled from the spec: PolarPosition construction wraps the azimuth and
requires `r` nonnegative. -/
def mkPolar (r phi : ℝ) : Option Vec2 :=
  if 0 ≤ r then some (.polar r (converter_azimuth_to_range phi)) else none

/-- Modelled from the spec: the 2D dispatcher needed by the composite
Cartesian3D -> Polar downgrade; self rules return the input, and the
CartesianPosition2D <-> PolarPosition pair uses the standard closed forms. -/
def represent_as_d2 (v : Vec2) (t : Chart2) : Option Vec2 :=
  match v, t with
  | .cart2 _ _, .cart2 => some v
  | .polar _ _, .polar => some v
  | .cart2 x y, .polar => mkPolar (Real.sqrt (x ^ 2 + y ^ 2)) (atan2 y x)
  | .polar r phi, .cart2 => some (.cart2 (r * Real.cos phi) (r * Real.sin phi))

/-! ## Lossy dimension-reducing conversions (`_transform/d3.py`) -/

/-- The non-fatal signal emitted by dimension-reducing position conversions
(`IrreversibleDimensionChange`). -/
inductive Warning where
  | irreversibleDimensionChange
deriving DecidableEq

/-- The 3D -> 1D position conversions of `_transform/d3.py`: every rule warns
of the irreversible dimension change and then drops or contracts the extra
components, the target constructor validating the result. -/
def represent_as_3to1 (v : Vec3) (t : Chart1) : Option Vec1 × List Warning :=
  match v, t with
  | .cart3 x _ _, .cart1 => (some (.cart1 x), [.irreversibleDimensionChange])
  | .cart3 x y z, .radial =>
      (mkRadialPosition (Real.sqrt (x ^ 2 + y ^ 2 + z ^ 2)),
        [.irreversibleDimensionChange])
  | .cyl rho phi _, .cart1 =>
      (some (.cart1 (rho * Real.cos phi)), [.irreversibleDimensionChange])
  | .cyl rho _ _, .radial => (mkRadialPosition rho, [.irreversibleDimensionChange])
  | .sph r theta phi, .cart1 =>
      (some (.cart1 (r * Real.sin theta * Real.cos phi)),
        [.irreversibleDimensionChange])
  | .sph r _ _, .radial => (mkRadialPosition r, [.irreversibleDimensionChange])
  | .msph r theta phi, .cart1 =>
      (some (.cart1 (r * Real.sin phi * Real.cos theta)),
        [.irreversibleDimensionChange])
  | .msph r _ _, .radial => (mkRadialPosition r, [.irreversibleDimensionChange])

/-- The 3D -> 2D position conversions of `_transform/d3.py`. The
Cartesian3D -> Polar rule warns and routes through CartesianPosition2D; that
inner 3D -> 2D hop warns a second time before the (warning-free) 2D
dispatch finishes the job. -/
def represent_as_3to2 (v : Vec3) (t : Chart2) : Option Vec2 × List Warning :=
  match v, t with
  | .cart3 x y _, .cart2 => (some (.cart2 x y), [.irreversibleDimensionChange])
  | .cart3 x y _, .polar =>
      (represent_as_d2 (.cart2 x y) .polar,
        [.irreversibleDimensionChange, .irreversibleDimensionChange])
  | .cyl rho phi _, .cart2 =>
      (some (.cart2 (rho * Real.cos phi) (rho * Real.sin phi)),
        [.irreversibleDimensionChange])
  | .cyl rho phi _, .polar => (mkPolar rho phi, [.irreversibleDimensionChange])
  | .sph r theta phi, .cart2 =>
      (some (.cart2 (r * Real.sin theta * Real.cos phi)
          (r * Real.sin theta * Real.sin phi)),
        [.irreversibleDimensionChange])
  | .sph r theta phi, .polar =>
      (mkPolar (r * Real.sin theta) phi, [.irreversibleDimensionChange])
  | .msph r theta phi, .cart2 =>
      (some (.cart2 (r * Real.sin phi * Real.cos theta)
          (r * Real.sin phi * Real.sin theta)),
        [.irreversibleDimensionChange])
  | .msph r theta phi, .polar =>
      (mkPolar (r * Real.sin phi) theta, [.irreversibleDimensionChange])

/-! ## ProlateSpheroidalPos construction (`_src/vectors/d3/spheroidal.py`) -/

/-- An azimuth as supplied to a field converter: either an already-typed
`Angle` instance, or a raw quantity. The `Unless(Angle, ...)` converter of
the `phi` field distinguishes exactly these two cases. -/
inductive AngleInput where
  | angle (val : ℝ)
  | raw (val : ℝ)

/-- The `phi` field converter of `ProlateSpheroidalPos`:
`Unless(Angle, lambda x: converter_azimuth_to_range(Angle.from_(x)))`. An
input that is already an `Angle` instance is stored unchanged; a raw input
is wrapped into `[0, 2*pi)`. -/
def converter_azimuth_unless_angle : AngleInput → ℝ
  | .angle a => a
  | .raw x => converter_azimuth_to_range x

/-- The stored fields of a `ProlateSpheroidalPos` (the focal length `Delta`
is a vector attribute). -/
structure ProlateSpheroidalPos where
  mu : ℝ
  nu : ℝ
  phi : ℝ
  Delta : ℝ

/-- ProlateSpheroidalPos construction: the `phi` converter runs, then
`__check_init__` checks, in order, that `Delta` is positive
(`check_non_negative_non_zero`, modelled from the spec: the focal length
must be positive — that validator is not among the embedded sources), that
`mu >= Delta^2` (`check_greater_than_equal`) and that `|nu| <= Delta^2`
(`check_less_than_equal`). -/
def mkProlateSpheroidalPos (mu nu : ℝ) (phi : AngleInput) (Delta : ℝ) :
    Option ProlateSpheroidalPos :=
  if Delta ≤ 0 then none
  else if mu < Delta ^ 2 then none
  else if Delta ^ 2 < |nu| then none
  else some ⟨mu, nu, converter_azimuth_unless_angle phi, Delta⟩

/-! ## FourVector shape check (`_src/vectors/d4/spacetime.py`) -/

/-- numpy broadcasting of one aligned dimension pair: equal dimensions
broadcast to themselves, a dimension of 1 stretches to the other. -/
def broadcastDim (a b : ℕ) : Option ℕ :=
  if a = b then some a else if a = 1 then some b else if b = 1 then some a else none

/-- numpy shape broadcasting on reversed (right-aligned) shapes. -/
def broadcastRev : List ℕ → List ℕ → Option (List ℕ)
  | [], t => some t
  | a :: s, [] => some (a :: s)
  | a :: s, b :: t =>
      match broadcastDim a b, broadcastRev s t with
      | some d, some r => some (d :: r)
      | _, _ => none

/-- Embedding of `jnp.broadcast_shapes` on two shapes: right-align, broadcast
dimensionwise, `none` on incompatible dimensions. -/
def broadcast_shapes (s t : List ℕ) : Option (List ℕ) :=
  (broadcastRev s.reverse t.reverse).map List.reverse

/-- FourVector construction at the shape level: `__check_init__` computes
`jnp.broadcast_shapes(t.shape, q.shape)` (failing when the shapes do not
broadcast) and then raises unless the result equals `q.shape`. -/
def mkFourVector (tshape qshape : List ℕ) : Option (List ℕ × List ℕ) :=
  if broadcast_shapes tshape qshape = some qshape then some (tshape, qshape) else none

/-- Right-aligned characterization used for comparison with the check: every
dimension of the first shape equals the corresponding dimension of the
second or is 1, and the first shape is no longer than the second (the first
shape broadcasts INTO the second). -/
def broadcastsIntoRev : List ℕ → List ℕ → Bool
  | [], _ => true
  | _ :: _, [] => false
  | a :: s, b :: t => (a == b || a == 1) && broadcastsIntoRev s t

/-- The first shape broadcasts into the second (right-aligned). -/
def broadcastsInto (s t : List ℕ) : Bool :=
  broadcastsIntoRev s.reverse t.reverse

/-! ## The acceleration transform engine
(`_src/vectors/register_vconvert/accelerations.py`)

The engine is embedded with the automatic-differentiation substrate as a
parameter: `jac` stands for `jax.jacfwd` of the position-conversion
function from the source chart to the target chart (a pure function of the
position's component vector), `jax.vmap` being the pointwise application of
`jac` across the flattened batch. Units are formal elements of a
commutative group `U`; a `Quantity` is a value tagged with a unit. -/

/-- A quantity: a real value tagged with a formal unit. -/
structure Qty (U : Type) where
  val : ℝ
  unit : U

/-- Quantity multiplication: values multiply, units multiply. -/
def Qty.mul {U : Type} [Mul U] (a b : Qty U) : Qty U :=
  ⟨a.val * b.val, a.unit * b.unit⟩

/-- The unit of a `jnp.stack`: all stacked entries must carry one common
unit; an empty or mixed-unit stack is an error. -/
def stackUnit {U : Type} [DecidableEq U] : List U → Option U
  | [] => none
  | u :: us => if us.all (fun w => w == u) then some u else none

/-- Row-major flattening of a two-axis batch (`reshape(flat_shape)`). -/
def flat2 {α : Type} {N₁ N₂ : ℕ} (a : Fin N₁ → Fin N₂ → α) : Fin (N₁ * N₂) → α :=
  fun i => a (finProdFinEquiv.symm i).1 (finProdFinEquiv.symm i).2

/-- Restoring the original two-axis batch shape (`reshape(shape)`). -/
def unflat2 {α : Type} {N₁ N₂ : ℕ} (a : Fin (N₁ * N₂) → α) : Fin N₁ → Fin N₂ → α :=
  fun i₁ i₂ => a (finProdFinEquiv (i₁, i₂))

/-- The target acceleration assembled by the transform: one real value per
batch element and target component, and one unit per target component. -/
structure AccComps (N₁ N₂ m : ℕ) (U : Type) where
  val : Fin N₁ → Fin N₂ → Fin m → ℝ
  unit : Fin m → U

/-- Embedding of the acceleration `vconvert` of
`_src/vectors/register_vconvert/accelerations.py`. The batch (of shape
`N₁ × N₂`) is flattened; the supplied position is converted into the source
chart of the acceleration (`toSrcChart`, a closed-form pure-position
conversion); the batched Jacobian of the source-to-target position map is
taken at each flattened element; the Jacobian rows acquire units
row-position-unit / column-position-unit; each target component is the
stack-and-sum dot product of its Jacobian row with the source acceleration
components; and the result is reshaped back to the original batch shape.
The supplied velocity is parsed and reshaped but never used by the
contraction. A mixed-unit (or empty) stack is a unit error (`none`). -/
def vconvert_acc {P V U : Type} [CommGroup U] [DecidableEq U] {N₁ N₂ : ℕ} (n m : ℕ)
    (jac : (Fin n → ℝ) → Fin m → Fin n → ℝ)
    (srcPosUnit : Fin n → U) (tgtPosUnit : Fin m → U)
    (toSrcChart : P → Fin n → ℝ)
    (acc : Fin N₁ → Fin N₂ → Fin n → ℝ) (accUnit : Fin n → U)
    (velocity : Fin N₁ → Fin N₂ → V)
    (position : Fin N₁ → Fin N₂ → P) :
    Option (AccComps N₁ N₂ m U) :=
  let posvec := flat2 position
  let _velvec := flat2 velocity
  let current_pos : Fin (N₁ * N₂) → Fin n → ℝ := fun i => toSrcChart (posvec i)
  let jacval : Fin (N₁ * N₂) → Fin m → Fin n → ℝ := fun i => jac (current_pos i)
  let jacUnit : Fin m → Fin n → U := fun k j => tgtPosUnit k / srcPosUnit j
  let flat_current := flat2 acc
  let term : Fin (N₁ * N₂) → Fin m → Fin n → Qty U := fun i k j =>
    Qty.mul ⟨jacval i k j, jacUnit k j⟩ ⟨flat_current i j, accUnit j⟩
  let sumUnit : Fin m → Option U := fun k =>
    stackUnit ((List.finRange n).map fun j => jacUnit k j * accUnit j)
  if h : ∀ k, (sumUnit k).isSome then
    some
      { val := unflat2 fun i k => ((List.finRange n).map fun j => (term i k j).val).sum
        unit := fun k => (sumUnit k).get (h k) }
  else none

/-! ## Theorems -/

theorem converter_azimuth_nonneg (phi : ℝ) : 0 ≤ converter_azimuth_to_range phi := by
  have h2 : (0:ℝ) < 2 * π := by positivity
  have := Int.floor_le (phi / (2 * π))
  have h3 : 2 * π * ⌊phi / (2 * π)⌋ ≤ phi := by
    rw [mul_comm]
    calc (⌊phi / (2 * π)⌋ : ℝ) * (2 * π) ≤ phi / (2 * π) * (2 * π) := by
          exact mul_le_mul_of_nonneg_right this h2.le
      _ = phi := div_mul_cancel₀ phi h2.ne'
  simp only [converter_azimuth_to_range]
  linarith

theorem converter_azimuth_lt (phi : ℝ) : converter_azimuth_to_range phi < 2 * π := by
  have h2 : (0:ℝ) < 2 * π := by positivity
  have := Int.lt_floor_add_one (phi / (2 * π))
  have h3 : phi < 2 * π * ⌊phi / (2 * π)⌋ + 2 * π := by
    have := mul_lt_mul_of_pos_right this h2
    rw [div_mul_cancel₀ phi h2.ne'] at this
    nlinarith
  simp only [converter_azimuth_to_range]
  linarith

theorem converter_azimuth_eq_self {phi : ℝ} (h0 : 0 ≤ phi) (h2 : phi < 2 * π) :
    converter_azimuth_to_range phi = phi := by
  have hpos : (0:ℝ) < 2 * π := by positivity
  have hfl : ⌊phi / (2 * π)⌋ = 0 := by
    rw [Int.floor_eq_zero_iff]
    constructor
    · exact div_nonneg h0 hpos.le
    · exact (div_lt_one hpos).2 h2
  simp [converter_azimuth_to_range, hfl]

theorem converter_azimuth_neg_shift {phi : ℝ} (h0 : -(2 * π) ≤ phi) (h2 : phi < 0) :
    converter_azimuth_to_range phi = phi + 2 * π := by
  have hpos : (0:ℝ) < 2 * π := by positivity
  have hfl : ⌊phi / (2 * π)⌋ = -1 := by
    rw [Int.floor_eq_iff]
    constructor
    · push_cast
      rw [le_div_iff₀ hpos]
      linarith
    · push_cast
      have : phi / (2 * π) < 0 := div_neg_of_neg_of_pos h2 hpos
      linarith
  rw [converter_azimuth_to_range, hfl]
  push_cast
  ring

theorem atan2_scaled_cos_sin {c t : ℝ} (hc : 0 < c) (ht : t ∈ Set.Ioc (-π) π) :
    atan2 (c * Real.sin t) (c * Real.cos t) = t := by
  have h1 : (⟨c * Real.cos t, c * Real.sin t⟩ : ℂ)
      = (c : ℂ) * (Complex.cos t + Complex.sin t * Complex.I) := by
    rw [← Complex.ofReal_cos, ← Complex.ofReal_sin]
    apply Complex.ext <;>
      simp [Complex.cos_ofReal_re, Complex.sin_ofReal_re]
  rw [atan2, h1, Complex.arg_real_mul _ hc, Complex.arg_cos_add_sin_mul_I ht]

/-- Recovering a wrapped azimuth: for `0 < c` and `phi` in the stored range
`[0, 2*pi)`, wrapping `atan2 (c * sin phi) (c * cos phi)` gives back `phi`. -/
theorem wrap_atan2_scaled {c phi : ℝ} (hc : 0 < c) (h0 : 0 ≤ phi) (h2 : phi < 2 * π) :
    converter_azimuth_to_range (atan2 (c * Real.sin phi) (c * Real.cos phi)) = phi := by
  rcases le_or_lt phi π with hle | hgt
  · rw [atan2_scaled_cos_sin hc ⟨by linarith [Real.pi_pos], hle⟩]
    exact converter_azimuth_eq_self h0 h2
  · have hsin : Real.sin (phi - 2 * π) = Real.sin phi := Real.sin_sub_two_pi phi
    have hcos : Real.cos (phi - 2 * π) = Real.cos phi := Real.cos_sub_two_pi phi
    have harg := atan2_scaled_cos_sin hc
      (t := phi - 2 * π) ⟨by linarith, by linarith [Real.pi_pos]⟩
    rw [hsin, hcos] at harg
    rw [harg, converter_azimuth_neg_shift (by linarith) (by linarith)]
    ring

/-! ### C2: self-conversion is the identity -/

/-- C2. Self-conversion is the identity: for every position vector `v`,
`represent_as v (type v) = v`, and for every velocity or acceleration `d`
with any supplied position (and velocity), the self transform returns `d`
unchanged, independent of the supplied position. -/
theorem self_conversion_identity :
    (∀ v : Vec3, represent_as_d3 v (chartOf3 v) = some v) ∧
    (∀ (d : Vel3) (p : Vec3), represent_as_vel3 d (chartOfVel3 d) p = some d) ∧
    (∀ (a : Acc3) (w : Vel3) (p : Vec3), represent_as_acc3 a (chartOfAcc3 a) w p = some a) ∧
    (∀ v : Vec1, represent_as_d1 v (chartOf1 v) = some v) ∧
    (∀ (d : Vel1) (p : Vec1), represent_as_vel1 d (chartOfVel1 d) p = some d) := by
  refine ⟨?_, ?_, ?_, ?_, ?_⟩
  · intro v; cases v <;> rfl
  · intro d p; cases d <;> simp [represent_as_vel3, chartOfVel3]
  · intro a w p; cases a <;> simp [represent_as_acc3, chartOfAcc3]
  · intro v; cases v <;> rfl
  · intro d p; cases d <;> simp [represent_as_vel1, chartOfVel1]

/-! ### C3: round trip through the Cartesian pivot -/

/-- C3 (amended). Round trip through the Cartesian pivot is the identity for
every valid Spherical, MathSpherical or Cylindrical position strictly off
the coordinate axis: converting to Cartesian3D and back to the original
chart reproduces the stored components exactly. -/
theorem roundtrip_identity_offaxis (v : Vec3) (hv : Valid3 v) (hnd : Offaxis3 v) :
    (represent_as_d3 v .cart).bind (fun w => represent_as_d3 w (chartOf3 v)) = some v := by
  cases v with
  | cart3 x y z => rfl
  | cyl rho phi z =>
      obtain ⟨h0, hp0, hp2⟩ := hv
      show mkCylindrical
          (Real.sqrt ((rho * Real.cos phi) ^ 2 + (rho * Real.sin phi) ^ 2))
          (atan2 (rho * Real.sin phi) (rho * Real.cos phi)) z = some (.cyl rho phi z)
      have hsq : (rho * Real.cos phi) ^ 2 + (rho * Real.sin phi) ^ 2 = rho ^ 2 := by
        linear_combination rho ^ 2 * Real.sin_sq_add_cos_sq phi
      simp only [mkCylindrical]
      rw [hsq, Real.sqrt_sq h0, if_pos h0, wrap_atan2_scaled hnd hp0 hp2]
  | sph r theta phi =>
      obtain ⟨hr0, ht0, htpi, hp0, hp2⟩ := hv
      obtain ⟨hr, ht, htp⟩ := hnd
      show mkSpherical
          (Real.sqrt ((r * Real.sin theta * Real.cos phi) ^ 2
            + (r * Real.sin theta * Real.sin phi) ^ 2 + (r * Real.cos theta) ^ 2))
          (Real.arccos ((r * Real.cos theta) /
            Real.sqrt ((r * Real.sin theta * Real.cos phi) ^ 2
              + (r * Real.sin theta * Real.sin phi) ^ 2 + (r * Real.cos theta) ^ 2)))
          (atan2 (r * Real.sin theta * Real.sin phi) (r * Real.sin theta * Real.cos phi))
          = some (.sph r theta phi)
      have hsq : (r * Real.sin theta * Real.cos phi) ^ 2
          + (r * Real.sin theta * Real.sin phi) ^ 2 + (r * Real.cos theta) ^ 2 = r ^ 2 := by
        linear_combination (r ^ 2 * Real.sin theta ^ 2) * Real.sin_sq_add_cos_sq phi
          + r ^ 2 * Real.sin_sq_add_cos_sq theta
      have hz : r * Real.cos theta / r = Real.cos theta :=
        mul_div_cancel_left₀ (Real.cos theta) hr.ne'
      simp only [mkSpherical]
      rw [hsq, Real.sqrt_sq hr0, hz, Real.arccos_cos ht0 htpi,
        if_pos ⟨hr0, ht0, htpi⟩,
        wrap_atan2_scaled (mul_pos hr (Real.sin_pos_of_pos_of_lt_pi ht htp)) hp0 hp2]
  | msph r theta phi =>
      obtain ⟨hr0, ht0, ht2, hp0, hppi⟩ := hv
      obtain ⟨hr, hp, hpp⟩ := hnd
      show mkMathSpherical
          (Real.sqrt ((r * Real.sin phi * Real.cos theta) ^ 2
            + (r * Real.sin phi * Real.sin theta) ^ 2 + (r * Real.cos phi) ^ 2))
          (atan2 (r * Real.sin phi * Real.sin theta) (r * Real.sin phi * Real.cos theta))
          (Real.arccos ((r * Real.cos phi) /
            Real.sqrt ((r * Real.sin phi * Real.cos theta) ^ 2
              + (r * Real.sin phi * Real.sin theta) ^ 2 + (r * Real.cos phi) ^ 2)))
          = some (.msph r theta phi)
      have hsq : (r * Real.sin phi * Real.cos theta) ^ 2
          + (r * Real.sin phi * Real.sin theta) ^ 2 + (r * Real.cos phi) ^ 2 = r ^ 2 := by
        linear_combination (r ^ 2 * Real.sin phi ^ 2) * Real.sin_sq_add_cos_sq theta
          + r ^ 2 * Real.sin_sq_add_cos_sq phi
      have hz : r * Real.cos phi / r = Real.cos phi :=
        mul_div_cancel_left₀ (Real.cos phi) hr.ne'
      simp only [mkMathSpherical]
      rw [hsq, Real.sqrt_sq hr0, hz, Real.arccos_cos hp0 hppi,
        if_pos ⟨hr0, hp0, hppi⟩,
        wrap_atan2_scaled (mul_pos hr (Real.sin_pos_of_pos_of_lt_pi hp hpp)) ht0 ht2]

/-- Shared evaluation: converting the Cartesian unit-z point to Spherical
yields zero azimuth, because `atan2 0 0 = 0`. -/
theorem cart_unit_z_to_sph :
    represent_as_d3 (.cart3 0 0 1) Chart3.sph = some (.sph 1 0 0) := by
  show mkSpherical (Real.sqrt (0 ^ 2 + 0 ^ 2 + 1 ^ 2))
      (Real.arccos ((1 : ℝ) / Real.sqrt (0 ^ 2 + 0 ^ 2 + 1 ^ 2)))
      (atan2 0 0) = some (.sph 1 0 0)
  have hs : Real.sqrt ((0 : ℝ) ^ 2 + 0 ^ 2 + 1 ^ 2) = 1 := by norm_num
  have ha : atan2 0 0 = 0 := by
    have h0 : (⟨0, 0⟩ : ℂ) = 0 := by apply Complex.ext <;> simp
    rw [atan2, h0, Complex.arg_zero]
  have h11 : (1 : ℝ) / 1 = 1 := by norm_num
  rw [hs, h11, Real.arccos_one, ha]
  simp only [mkSpherical]
  rw [if_pos ⟨zero_le_one, le_rfl, Real.pi_nonneg⟩,
    converter_azimuth_eq_self le_rfl Real.two_pi_pos]

/-- C3 counterexample: the valid on-axis spherical position with `r = 1`,
`theta = 0`, `phi = pi/2` does not survive the round trip through the
Cartesian pivot — the azimuth comes back as `0`, not `pi/2`, and no
azimuth wrap accounts for the difference. -/
theorem roundtrip_fails_on_axis :
    Valid3 (.sph 1 0 (π / 2)) ∧
    (represent_as_d3 (.sph 1 0 (π / 2)) .cart).bind
        (fun w => represent_as_d3 w Chart3.sph) ≠ some (.sph 1 0 (π / 2)) := by
  constructor
  · exact ⟨zero_le_one, le_rfl, Real.pi_nonneg, by positivity, by linarith [Real.pi_pos]⟩
  · have hc : represent_as_d3 (Vec3.sph 1 0 (π / 2)) Chart3.cart = some (.cart3 0 0 1) := by
      show mkCartesian3D (1 * Real.sin 0 * Real.cos (π / 2))
          (1 * Real.sin 0 * Real.sin (π / 2)) (1 * Real.cos 0) = some (.cart3 0 0 1)
      simp [mkCartesian3D]
    rw [hc, Option.some_bind, cart_unit_z_to_sph]
    intro hEq
    simp only [Option.some.injEq, Vec3.sph.injEq] at hEq
    obtain ⟨-, -, hphi⟩ := hEq
    linarith [Real.pi_pos]

/-- C3 witness: the off-axis spherical position `(r, theta, phi) = (1, pi/2, 0)`
is valid and off-axis, and survives the round trip. -/
theorem roundtrip_identity_offaxis_witness :
    Valid3 (.sph 1 (π / 2) 0) ∧ Offaxis3 (.sph 1 (π / 2) 0) ∧
    (represent_as_d3 (.sph 1 (π / 2) 0) .cart).bind
        (fun w => represent_as_d3 w Chart3.sph) = some (.sph 1 (π / 2) 0) := by
  have hv : Valid3 (Vec3.sph 1 (π / 2) 0) :=
    ⟨zero_le_one, by positivity, by linarith [Real.pi_pos], le_rfl, Real.two_pi_pos⟩
  have hnd : Offaxis3 (Vec3.sph 1 (π / 2) 0) :=
    ⟨one_pos, by positivity, by linarith [Real.pi_pos]⟩
  exact ⟨hv, hnd, roundtrip_identity_offaxis _ hv hnd⟩

/-! ### C4: direct rules against the Cartesian pivot -/

/-- C4 (amended). The registered direct Cylindrical-to-Spherical rule agrees,
in exact real arithmetic, with the two-hop pivot path through Cartesian3D on
every valid cylindrical position with strictly positive `rho`; and whenever
the registry holds no rule for a source/target pair, the dispatcher computes
exactly the two-hop composition through the canonical Cartesian chart. -/
theorem cyl_to_sph_direct_matches_pivot :
    (∀ rho phi z : ℝ, 0 < rho → 0 ≤ phi → phi < 2 * π →
      represent_as_d3 (.cyl rho phi z) Chart3.sph
        = (represent_as_d3 (.cyl rho phi z) .cart).bind
            (fun w => represent_as_d3 w Chart3.sph)) ∧
    (∀ (rules : Chart3 → Chart3 → Option (Vec3 → Option Vec3)) (fuel : ℕ)
        (v : Vec3) (t : Chart3),
      rules (chartOf3 v) t = none →
      dispatch3With rules (fuel + 1) v t
        = (dispatch3With rules fuel v .cart).bind
            (fun w => dispatch3With rules fuel w t)) := by
  constructor
  · intro rho phi z hrho h0 h2
    show mkSpherical (Real.sqrt (rho ^ 2 + z ^ 2))
        (Real.arccos (z / Real.sqrt (rho ^ 2 + z ^ 2))) phi
      = mkSpherical
          (Real.sqrt ((rho * Real.cos phi) ^ 2 + (rho * Real.sin phi) ^ 2 + z ^ 2))
          (Real.arccos (z /
            Real.sqrt ((rho * Real.cos phi) ^ 2 + (rho * Real.sin phi) ^ 2 + z ^ 2)))
          (atan2 (rho * Real.sin phi) (rho * Real.cos phi))
    have hsq : (rho * Real.cos phi) ^ 2 + (rho * Real.sin phi) ^ 2 + z ^ 2
        = rho ^ 2 + z ^ 2 := by
      linear_combination rho ^ 2 * Real.sin_sq_add_cos_sq phi
    simp only [mkSpherical]
    rw [hsq, wrap_atan2_scaled hrho h0 h2, converter_azimuth_eq_self h0 h2]
  · intro rules fuel v t h
    show (match rules (chartOf3 v) t with
      | some f => f v
      | none =>
          (dispatch3With rules fuel v .cart).bind fun w => dispatch3With rules fuel w t)
      = (dispatch3With rules fuel v .cart).bind fun w => dispatch3With rules fuel w t
    rw [h]

/-- C4 counterexample: at the valid cylindrical position `rho = 0`,
`phi = pi/2`, `z = 1`, the direct Cylindrical-to-Spherical rule keeps the
azimuth `pi/2`, while the pivot path through Cartesian3D collapses it to
`0` (`atan2 0 0 = 0`). -/
theorem cyl_to_sph_direct_pivot_disagree_on_axis :
    Valid3 (.cyl 0 (π / 2) 1) ∧
    represent_as_d3 (.cyl 0 (π / 2) 1) Chart3.sph
      ≠ (represent_as_d3 (.cyl 0 (π / 2) 1) .cart).bind
          (fun w => represent_as_d3 w Chart3.sph) := by
  constructor
  · exact ⟨le_rfl, by positivity, by linarith [Real.pi_pos]⟩
  · have hdir : represent_as_d3 (Vec3.cyl 0 (π / 2) 1) Chart3.sph
        = some (.sph 1 0 (π / 2)) := by
      show mkSpherical (Real.sqrt ((0 : ℝ) ^ 2 + 1 ^ 2))
          (Real.arccos ((1 : ℝ) / Real.sqrt ((0 : ℝ) ^ 2 + 1 ^ 2))) (π / 2)
          = some (.sph 1 0 (π / 2))
      have hs : Real.sqrt ((0 : ℝ) ^ 2 + 1 ^ 2) = 1 := by norm_num
      have h11 : (1 : ℝ) / 1 = 1 := by norm_num
      rw [hs, h11, Real.arccos_one]
      simp only [mkSpherical]
      rw [if_pos ⟨zero_le_one, le_rfl, Real.pi_nonneg⟩,
        converter_azimuth_eq_self (by positivity) (by linarith [Real.pi_pos])]
    have hcart : represent_as_d3 (Vec3.cyl 0 (π / 2) 1) Chart3.cart
        = some (.cart3 0 0 1) := by
      show mkCartesian3D (0 * Real.cos (π / 2)) (0 * Real.sin (π / 2)) 1
          = some (.cart3 0 0 1)
      simp [mkCartesian3D]
    rw [hdir, hcart, Option.some_bind, cart_unit_z_to_sph]
    intro hEq
    simp only [Option.some.injEq, Vec3.sph.injEq] at hEq
    obtain ⟨-, -, hphi⟩ := hEq
    linarith [Real.pi_pos]

/-- C4 witness: the direct/pivot agreement holds at the off-axis cylindrical
position `(1, 0, 5)`, and an empty registry sends every pair to the pivot. -/
theorem cyl_to_sph_direct_matches_pivot_witness :
    (0 : ℝ) < 1 ∧ (0 : ℝ) ≤ 0 ∧ (0 : ℝ) < 2 * π ∧
    represent_as_d3 (.cyl 1 0 5) Chart3.sph
      = (represent_as_d3 (.cyl 1 0 5) .cart).bind
          (fun w => represent_as_d3 w Chart3.sph) ∧
    ((fun _ _ => none : Chart3 → Chart3 → Option (Vec3 → Option Vec3))
        (chartOf3 (.cart3 0 0 0)) Chart3.sph = none) ∧
    dispatch3With (fun _ _ => none) 1 (.cart3 0 0 0) Chart3.sph
      = (dispatch3With (fun _ _ => none) 0 (.cart3 0 0 0) .cart).bind
          (fun w => dispatch3With (fun _ _ => none) 0 w Chart3.sph) :=
  ⟨one_pos, le_rfl, Real.two_pi_pos,
    cyl_to_sph_direct_matches_pivot.1 1 0 5 one_pos le_rfl Real.two_pi_pos,
    rfl, cyl_to_sph_direct_matches_pivot.2 _ 0 _ _ rfl⟩

/-! ### C6: validator boundary at construction -/

/-- C6. Construction-time validators: `RadialPosition` fails exactly on a
negative component and stores a nonnegative component unchanged;
`ProlateSpheroidalPos` succeeds exactly when `Delta` is positive,
`mu >= Delta^2` and `|nu| <= Delta^2`; the checks run at construction. -/
theorem construction_validator_boundary (r mu nu Delta : ℝ) (phi : AngleInput) :
    ((mkRadialPosition r).isSome ↔ 0 ≤ r) ∧
    (0 ≤ r → mkRadialPosition r = some (.radial r)) ∧
    ((mkProlateSpheroidalPos mu nu phi Delta).isSome ↔
      0 < Delta ∧ Delta ^ 2 ≤ mu ∧ |nu| ≤ Delta ^ 2) := by
  refine ⟨?_, ?_, ?_⟩
  · rcases lt_or_le r 0 with h | h
    · simp only [mkRadialPosition, if_pos h, Option.isSome_none]
      simp [not_le.mpr h]
    · simp only [mkRadialPosition, if_neg (not_lt.mpr h), Option.isSome_some]
      simp [h]
  · intro h
    simp only [mkRadialPosition]
    rw [if_neg (not_lt.mpr h)]
  · by_cases h1 : Delta ≤ 0
    · simp only [mkProlateSpheroidalPos, if_pos h1, Option.isSome_none]
      simp only [Bool.false_eq_true, false_iff]
      intro hc
      exact absurd hc.1 (not_lt.mpr h1)
    · by_cases h2 : mu < Delta ^ 2
      · simp only [mkProlateSpheroidalPos, if_neg h1, if_pos h2, Option.isSome_none]
        simp only [Bool.false_eq_true, false_iff]
        intro hc
        exact absurd h2 (not_lt.mpr hc.2.1)
      · by_cases h3 : Delta ^ 2 < |nu|
        · simp only [mkProlateSpheroidalPos, if_neg h1, if_neg h2, if_pos h3,
            Option.isSome_none]
          simp only [Bool.false_eq_true, false_iff]
          intro hc
          exact absurd h3 (not_lt.mpr hc.2.2)
        · simp only [mkProlateSpheroidalPos, if_neg h1, if_neg h2, if_neg h3,
            Option.isSome_some]
          simp only [true_iff]
          exact ⟨not_le.mp h1, not_lt.mp h2, not_lt.mp h3⟩

/-- C6 witness: `r = 0` constructs and is stored unchanged, while the spec's
`mu = 0.5, nu = 0.5, Delta = 1.5` example (so `mu < Delta^2`) is rejected. -/
theorem construction_validator_boundary_witness :
    mkRadialPosition 0 = some (.radial 0) ∧
    mkProlateSpheroidalPos (1 / 2) (1 / 2) (.raw (1 / 4)) (3 / 2) = none := by
  constructor
  · exact (construction_validator_boundary 0 0 0 0 (.raw 0)).2.1 le_rfl
  · have h := (construction_validator_boundary 0 (1 / 2) (1 / 2) (3 / 2) (.raw (1 / 4))).2.2
    rw [← Option.not_isSome_iff_eq_none]
    intro hs
    have hc := h.mp hs
    have h2 := hc.2.1
    norm_num at h2

/-! ### C7: lossy dimension-reducing conversions -/

/-- C7. Every dimension-reducing position conversion of `_transform/d3.py`
emits the irreversible-dimension-change warning, and converting a
Cartesian3D position `(x, y, z)` to Cartesian1D warns and returns the 1D
vector with sole component `x`, discarding `y` and `z`. -/
theorem lossy_downgrades_warn (v : Vec3) (t1 : Chart1) (t2 : Chart2) (x y z : ℝ) :
    (represent_as_3to1 v t1).2 ≠ [] ∧ (represent_as_3to2 v t2).2 ≠ [] ∧
    represent_as_3to1 (.cart3 x y z) Chart1.cart1
      = (some (.cart1 x), [.irreversibleDimensionChange]) := by
  refine ⟨?_, ?_, rfl⟩
  · cases v <;> cases t1 <;> simp [represent_as_3to1]
  · cases v <;> cases t2 <;> simp [represent_as_3to2]

/-! ### C8: azimuth normalization at construction -/

/-- C8 counterexample: an azimuth supplied as an `Angle` instance bypasses
the wrap of the `Unless` field converter: `ProlateSpheroidalPos` stores
`phi = 2*pi + 1` unchanged, and that stored value is not below `2*pi`, so
not every held instance has its azimuth in `[0, 2*pi)`. -/
theorem azimuth_wrap_bypassed_by_angle_instance :
    mkProlateSpheroidalPos 3 0 (.angle (2 * π + 1)) (3 / 2)
      = some ⟨3, 0, 2 * π + 1, 3 / 2⟩ ∧
    ¬ (2 * π + 1 < 2 * π) := by
  constructor
  · simp only [mkProlateSpheroidalPos, converter_azimuth_unless_angle]
    rw [if_neg (by norm_num), if_neg (by norm_num), if_neg (by norm_num [abs_zero])]
  · linarith

/-- C8 (amended). A raw (non-`Angle`) azimuth input is wrapped by the field
converter: the wrapped value lies in `[0, 2*pi)` and is exactly what a
constructed `ProlateSpheroidalPos` stores; an input already carried as an
`Angle` instance bypasses the wrap and is stored unchanged. -/
theorem azimuth_raw_inputs_wrapped (x mu nu Delta : ℝ) :
    (0 ≤ converter_azimuth_to_range x ∧ converter_azimuth_to_range x < 2 * π) ∧
    (∀ p : ProlateSpheroidalPos,
      mkProlateSpheroidalPos mu nu (.raw x) Delta = some p →
      p.phi = converter_azimuth_to_range x) ∧
    (∀ (a : ℝ) (p : ProlateSpheroidalPos),
      mkProlateSpheroidalPos mu nu (.angle a) Delta = some p → p.phi = a) := by
  refine ⟨⟨converter_azimuth_nonneg x, converter_azimuth_lt x⟩, ?_, ?_⟩
  · intro p hp
    simp only [mkProlateSpheroidalPos, converter_azimuth_unless_angle] at hp
    split_ifs at hp
    all_goals first
      | exact Option.noConfusion hp
      | rw [← Option.some.inj hp]
  · intro a p hp
    simp only [mkProlateSpheroidalPos, converter_azimuth_unless_angle] at hp
    split_ifs at hp
    all_goals first
      | exact Option.noConfusion hp
      | rw [← Option.some.inj hp]

/-- C8 witness: at the raw input `7`, the stored azimuth is the wrapped value
and lies in `[0, 2*pi)`. -/
theorem azimuth_raw_inputs_wrapped_witness :
    (0 ≤ converter_azimuth_to_range 7 ∧ converter_azimuth_to_range 7 < 2 * π) ∧
    ProlateSpheroidalPos.phi ⟨3, 0, converter_azimuth_to_range 7, 3 / 2⟩
      = converter_azimuth_to_range 7 := by
  have hp : mkProlateSpheroidalPos 3 0 (.raw 7) (3 / 2)
      = some ⟨3, 0, converter_azimuth_to_range 7, 3 / 2⟩ := by
    simp only [mkProlateSpheroidalPos, converter_azimuth_unless_angle]
    rw [if_neg (by norm_num), if_neg (by norm_num), if_neg (by norm_num [abs_zero])]
  exact ⟨(azimuth_raw_inputs_wrapped 7 3 0 (3 / 2)).1,
    (azimuth_raw_inputs_wrapped 7 3 0 (3 / 2)).2.1 _ hp⟩

/-! ### C10: Cartesian1D to Radial passes the component through unvalidated -/

/-- C10. The Cartesian1D-to-Radial rule maps `x` directly to `r` with no
absolute value: a negative `x` trips the non-negative-radius domain check of
the target constructor, and a nonnegative `x` is stored as `r = x`. -/
theorem cartesian1d_to_radial_no_abs (x : ℝ) :
    (x < 0 → represent_as_d1 (.cart1 x) Chart1.radial = none) ∧
    (0 ≤ x → represent_as_d1 (.cart1 x) Chart1.radial = some (.radial x)) := by
  constructor
  · intro h
    show mkRadialPosition x = none
    simp only [mkRadialPosition]
    rw [if_pos h]
  · intro h
    show mkRadialPosition x = some (.radial x)
    simp only [mkRadialPosition]
    rw [if_neg (not_lt.mpr h)]

/-- C10 witness: `x = -1` is rejected by the radial domain check and `x = 2`
comes through as `r = 2`. -/
theorem cartesian1d_to_radial_no_abs_witness :
    represent_as_d1 (.cart1 (-1)) Chart1.radial = none ∧
    represent_as_d1 (.cart1 2) Chart1.radial = some (.radial 2) :=
  ⟨(cartesian1d_to_radial_no_abs (-1)).1 (by norm_num),
    (cartesian1d_to_radial_no_abs 2).2 (by norm_num)⟩

/-! ### C9: the FourVector shape check -/

theorem broadcastDim_none_imp {a b : ℕ} (h : broadcastDim a b = none) :
    a ≠ b ∧ a ≠ 1 := by
  simp only [broadcastDim] at h
  by_cases h1 : a = b
  · rw [if_pos h1] at h
    exact Option.noConfusion h
  · rw [if_neg h1] at h
    by_cases h2 : a = 1
    · rw [if_pos h2] at h
      exact Option.noConfusion h
    · exact ⟨h1, h2⟩

theorem broadcastDim_some_right_iff {a b d : ℕ} (h : broadcastDim a b = some d) :
    d = b ↔ (a = b ∨ a = 1) := by
  simp only [broadcastDim] at h
  by_cases h1 : a = b
  · rw [if_pos h1] at h
    have hd : d = a := (Option.some.inj h).symm
    subst hd
    simp [h1]
  · rw [if_neg h1] at h
    by_cases h2 : a = 1
    · rw [if_pos h2] at h
      have hd : d = b := (Option.some.inj h).symm
      simp [hd, h2]
    · rw [if_neg h2] at h
      by_cases h3 : b = 1
      · rw [if_pos h3] at h
        have hd : d = a := (Option.some.inj h).symm
        subst hd
        constructor
        · intro hab
          exact absurd hab h1
        · rintro (hx | hx)
          · exact absurd hx h1
          · exact absurd hx h2
      · rw [if_neg h3] at h
        exact Option.noConfusion h

/-- Broadcasting reproduces the right shape exactly when the left shape
broadcasts into it, dimension by dimension (on reversed shapes). -/
theorem broadcastRev_eq_right_iff (s t : List ℕ) :
    broadcastRev s t = some t ↔ broadcastsIntoRev s t = true := by
  induction s generalizing t with
  | nil =>
      cases t <;> simp [broadcastRev, broadcastsIntoRev]
  | cons a s ih =>
      cases t with
      | nil =>
          simp [broadcastRev, broadcastsIntoRev]
      | cons b t =>
          simp only [broadcastRev, broadcastsIntoRev, Bool.and_eq_true, Bool.or_eq_true,
            beq_iff_eq]
          rcases hd : broadcastDim a b with _ | d
          · simp only [hd]
            constructor
            · intro hx
              exact Option.noConfusion hx
            · rintro ⟨hx, -⟩
              obtain ⟨hab, ha1⟩ := broadcastDim_none_imp hd
              rcases hx with hx | hx
              · exact absurd hx hab
              · exact absurd hx ha1
          · rcases hr : broadcastRev s t with _ | r
            · simp only [hd, hr]
              constructor
              · intro hx
                exact Option.noConfusion hx
              · rintro ⟨-, hbi⟩
                have hsome := (ih t).mpr hbi
                rw [hr] at hsome
                exact Option.noConfusion hsome
            · simp only [hd, hr, Option.some.injEq, List.cons.injEq]
              constructor
              · rintro ⟨hdb, hrt⟩
                refine ⟨(broadcastDim_some_right_iff hd).mp hdb, (ih t).mp ?_⟩
                rw [hr, hrt]
              · rintro ⟨hab, hbi⟩
                refine ⟨(broadcastDim_some_right_iff hd).mpr hab, ?_⟩
                have hsome := (ih t).mpr hbi
                rw [hr] at hsome
                exact Option.some.inj hsome

/-- C9 (amended). FourVector construction succeeds exactly when the time
shape broadcasts INTO the spatial shape: right-aligned, every time dimension
equals the corresponding spatial dimension or is 1, and the time shape has
no extra leading dimensions. -/
theorem fourvector_check_iff_time_broadcasts_into_q (tshape qshape : List ℕ) :
    (mkFourVector tshape qshape).isSome = broadcastsInto tshape qshape := by
  simp only [mkFourVector, broadcast_shapes, broadcastsInto]
  split_ifs with h
  · rcases hx : broadcastRev tshape.reverse qshape.reverse with _ | r
    · rw [hx] at h
      exact Option.noConfusion h
    · rw [hx] at h
      simp only [Option.map_some'] at h
      have hrq : r = qshape.reverse := by
        have hh := Option.some.inj h
        rw [← hh]
        simp
      rw [hrq] at hx
      rw [Option.isSome_some, (broadcastRev_eq_right_iff _ _).mp hx]
  · cases hb : broadcastsIntoRev tshape.reverse qshape.reverse with
    | false => simp
    | true =>
        exfalso
        apply h
        rw [(broadcastRev_eq_right_iff _ _).mpr hb, Option.map_some']
        simp

/-- C9 counterexample: a time component of shape `[2]` and a scalar spatial
position (shape `[]`) are broadcastable to the common shape `[2]`, yet the
FourVector shape check rejects them, because the broadcast result differs
from the spatial shape. -/
theorem fourvector_rejects_broadcastable_time_shape :
    (broadcast_shapes [2] []).isSome = true ∧ mkFourVector [2] [] = none := by
  constructor
  · rfl
  · rfl

/-! ### C1 and C5: the acceleration Jacobian-contraction engine -/

theorem stackUnit_map_const {U : Type} [DecidableEq U] {α : Type} {l : List α}
    (h : l ≠ []) (c : U) : stackUnit (l.map fun _ => c) = some c := by
  cases l with
  | nil => exact absurd rfl h
  | cons a l =>
      simp only [List.map_cons, stackUnit]
      rw [if_pos]
      simp [List.all_eq_true]

/-- C1. For every batched source acceleration with co-located velocity and
position, the engine succeeds (given dimensionful coherence of the source
components: each acceleration unit is the matching position unit times one
common factor) and each named component of the target acceleration, at each
batch index of the restored batch shape, is the dot product of the
corresponding Jacobian row — the Jacobian of the source-to-target position
conversion evaluated at the supplied position — with the source acceleration
components; each Jacobian entry carries unit target-position-unit /
source-position-unit, so each target component carries the target position
unit times the common factor. -/
theorem acc_components_contract_jacobian_rows {P V U : Type} [CommGroup U] [DecidableEq U]
    {N₁ N₂ : ℕ} (n m : ℕ)
    (jac : (Fin n → ℝ) → Fin m → Fin n → ℝ)
    (srcPosUnit : Fin n → U) (tgtPosUnit : Fin m → U)
    (toSrcChart : P → Fin n → ℝ)
    (acc : Fin N₁ → Fin N₂ → Fin n → ℝ) (accUnit : Fin n → U)
    (velocity : Fin N₁ → Fin N₂ → V)
    (position : Fin N₁ → Fin N₂ → P)
    (w : U) (hn : 0 < n) (hcoh : ∀ j, accUnit j = srcPosUnit j * w) :
    vconvert_acc n m jac srcPosUnit tgtPosUnit toSrcChart acc accUnit velocity position
      = some
          { val := fun i₁ i₂ k => ∑ j, jac (toSrcChart (position i₁ i₂)) k j * acc i₁ i₂ j
            unit := fun k => tgtPosUnit k * w } := by
  have hunit : ∀ k : Fin m,
      stackUnit ((List.finRange n).map fun j => tgtPosUnit k / srcPosUnit j * accUnit j)
        = some (tgtPosUnit k * w) := by
    intro k
    have hconst : ((List.finRange n).map fun j => tgtPosUnit k / srcPosUnit j * accUnit j)
        = (List.finRange n).map fun _ => tgtPosUnit k * w := by
      apply List.map_congr_left
      intro j _
      rw [hcoh j, ← mul_assoc, div_mul_cancel]
    rw [hconst]
    apply stackUnit_map_const
    simp only [ne_eq, List.finRange_eq_nil]
    omega
  have hc : ∀ k : Fin m,
      (stackUnit ((List.finRange n).map fun j => tgtPosUnit k / srcPosUnit j * accUnit j)).isSome
      := by
    intro k
    rw [hunit k]
    rfl
  simp only [vconvert_acc]
  rw [dif_pos hc]
  refine congrArg some ?_
  simp only [AccComps.mk.injEq]
  constructor
  · funext i₁ i₂ k
    simp only [unflat2, flat2, Qty.mul, Equiv.symm_apply_apply]
    rw [Fin.sum_univ_def]
  · funext k
    have h2 : some ((stackUnit ((List.finRange n).map
        fun j => tgtPosUnit k / srcPosUnit j * accUnit j)).get (hc k))
        = some (tgtPosUnit k * w) := by
      rw [Option.some_get, hunit k]
    exact Option.some.inj h2

/-- C5. Batch independence: at every batch index, the batched acceleration
conversion yields exactly what converting that index's
(acceleration, velocity, position) triple on its own (a 1-element batch)
yields — same component values, same units — with no cross-batch mixing. -/
theorem acc_transform_batch_independent {P V U : Type} [CommGroup U] [DecidableEq U]
    {N₁ N₂ : ℕ} (n m : ℕ)
    (jac : (Fin n → ℝ) → Fin m → Fin n → ℝ)
    (srcPosUnit : Fin n → U) (tgtPosUnit : Fin m → U)
    (toSrcChart : P → Fin n → ℝ)
    (acc : Fin N₁ → Fin N₂ → Fin n → ℝ) (accUnit : Fin n → U)
    (velocity : Fin N₁ → Fin N₂ → V)
    (position : Fin N₁ → Fin N₂ → P)
    (i₁ : Fin N₁) (i₂ : Fin N₂) :
    (vconvert_acc n m jac srcPosUnit tgtPosUnit toSrcChart acc accUnit velocity
        position).map (fun res => (res.val i₁ i₂, res.unit))
      = (vconvert_acc n m jac srcPosUnit tgtPosUnit toSrcChart
            ((fun _ _ => acc i₁ i₂) : Fin 1 → Fin 1 → Fin n → ℝ) accUnit
            ((fun _ _ => velocity i₁ i₂) : Fin 1 → Fin 1 → V)
            ((fun _ _ => position i₁ i₂) : Fin 1 → Fin 1 → P)).map
          (fun res => (res.val 0 0, res.unit)) := by
  simp only [vconvert_acc]
  by_cases h : ∀ k : Fin m,
      (stackUnit ((List.finRange n).map fun j => tgtPosUnit k / srcPosUnit j * accUnit j)).isSome
  · rw [dif_pos h, dif_pos h]
    simp only [Option.map_some']
    refine congrArg some ?_
    simp only [Prod.mk.injEq]
    refine ⟨?_, trivial⟩
    funext k
    simp only [unflat2, flat2, Qty.mul, Equiv.symm_apply_apply]
  · rw [dif_neg h, dif_neg h]
    rfl

/-- C1 witness: a concrete one-element batch with one component per chart,
trivial units, Jacobian entry 2 and source acceleration 3. -/
theorem acc_components_contract_jacobian_rows_witness :
    0 < 1 ∧
    (∀ j : Fin 1, ((fun _ : Fin 1 => (1 : Multiplicative ℤ)) j)
        = ((fun _ : Fin 1 => (1 : Multiplicative ℤ)) j) * (1 : Multiplicative ℤ)) ∧
    vconvert_acc 1 1
        ((fun _ _ _ => (2 : ℝ)) : (Fin 1 → ℝ) → Fin 1 → Fin 1 → ℝ)
        (fun _ : Fin 1 => (1 : Multiplicative ℤ)) (fun _ : Fin 1 => (1 : Multiplicative ℤ))
        ((fun _ _ => (0 : ℝ)) : Unit → Fin 1 → ℝ)
        ((fun _ _ _ => (3 : ℝ)) : Fin 1 → Fin 1 → Fin 1 → ℝ)
        (fun _ : Fin 1 => (1 : Multiplicative ℤ))
        ((fun _ _ => ()) : Fin 1 → Fin 1 → Unit)
        ((fun _ _ => ()) : Fin 1 → Fin 1 → Unit)
      = some
          { val := fun _ _ _ => ∑ _j : Fin 1, (2 : ℝ) * 3
            unit := fun _ => (1 : Multiplicative ℤ) * 1 } :=
  ⟨Nat.one_pos, fun _ => (one_mul (1 : Multiplicative ℤ)).symm,
    acc_components_contract_jacobian_rows 1 1
      ((fun _ _ _ => (2 : ℝ)) : (Fin 1 → ℝ) → Fin 1 → Fin 1 → ℝ)
      (fun _ : Fin 1 => (1 : Multiplicative ℤ)) (fun _ : Fin 1 => (1 : Multiplicative ℤ))
      ((fun _ _ => (0 : ℝ)) : Unit → Fin 1 → ℝ)
      ((fun _ _ _ => (3 : ℝ)) : Fin 1 → Fin 1 → Fin 1 → ℝ)
      (fun _ : Fin 1 => (1 : Multiplicative ℤ))
      ((fun _ _ => ()) : Fin 1 → Fin 1 → Unit)
      ((fun _ _ => ()) : Fin 1 → Fin 1 → Unit)
      (1 : Multiplicative ℤ) Nat.one_pos
      (fun _ => (one_mul (1 : Multiplicative ℤ)).symm)⟩

end

end Coordinax
